import Mathlib

set_option maxRecDepth 8000

/-!
Shallow embedding of the TeX-input parser stack
(src/mathjax3-ts/input/tex/Stack.ts) together with proofs about its
push/pop protocol and environment threading.  JavaScript objects used as
environment records are compared by identity in the source, so the model
keeps every record in a store and lets items hold references into it.
-/

/-- Environment values: the parser stores numbers, booleans and other data
in environment records; numbers and booleans suffice for the properties
proved here. -/
inductive EnvVal where
  | num (n : Nat)
  | bool (b : Bool)
deriving DecidableEq

/-- An environment record (the content of an `EnvList` object): a
JavaScript object used as an open string-keyed map, modelled as an
insertion-ordered association list. -/
abbrev EnvMap := List (String × EnvVal)

/-- Read a key of a record. -/
def EnvMap.get : EnvMap → String → Option EnvVal
  | [], _ => none
  | (k, v) :: tl, key => if k = key then some v else EnvMap.get tl key

/-- Write a key of a record: updates an existing key in place and appends
a new key at the end, as assignment on a JavaScript object does. -/
def EnvMap.set : EnvMap → String → EnvVal → EnvMap
  | [], key, v => [(key, v)]
  | (k, w) :: tl, key, v =>
    if k = key then (k, v) :: tl else (k, w) :: EnvMap.set tl key v

/-- The keys of a record are pairwise distinct (true of every JavaScript
object; assumed where a proof needs it). -/
def keysNodup (m : EnvMap) : Prop := (m.map Prod.fst).Nodup

instance (m : EnvMap) : Decidable (keysNodup m) := by
  unfold keysNodup; infer_instance

/-- The overlay loop of Stack.Push: every own key of `source` is written
into `target`, in key order. -/
def overlayInto (target source : EnvMap) : EnvMap :=
  source.foldl (fun t kv => EnvMap.set t kv.1 kv.2) target

/-- A reference to an allocated environment record. -/
abbrev EnvRef := Nat

/-- The store of allocated environment records. -/
structure Store where
  recs : List EnvMap
deriving DecidableEq

/-- Content of the record a reference points to. -/
def Store.get (st : Store) (r : EnvRef) : EnvMap := (st.recs.get? r).getD []

/-- Replace the content of the record a reference points to. -/
def Store.set (st : Store) (r : EnvRef) (m : EnvMap) : Store := ⟨st.recs.set r m⟩

/-- Allocate a fresh record. -/
def Store.alloc (st : Store) (m : EnvMap) : Store × EnvRef :=
  (⟨st.recs ++ [m]⟩, st.recs.length)

/-- An opaque Mml tree node (its structure is outside this core). -/
structure MmlNode where
  id : Nat
deriving DecidableEq

/-- A stack item.  StackItem.ts is not part of src/, so the fields follow
the spec's base contract: a kind discriminator, openness, an optional own
environment record, the global reference assigned by the Stack, and the
accumulated child nodes. -/
structure StackItem where
  kind : String
  isOpen : Bool
  env : Option EnvRef
  global : Option EnvRef
  nodes : List MmlNode
deriving DecidableEq

/-- The parser stack state: the Stack's global record, the item list (head
of the list is the top of the stack), the current-environment pointer
(none models an undefined `_env`), and the record store. -/
structure StackState where
  global : EnvRef
  stack : List StackItem
  env : Option EnvRef
  store : Store
deriving DecidableEq

/-- Content of the current environment.  Iterating an absent environment,
as the JavaScript loop over undefined does, yields nothing. -/
def StackState.curEnvMap (s : StackState) : EnvMap :=
  match s.env with
  | some r => s.store.get r
  | none => []

/-- Failures of the stack operations.  `typeError` models the JavaScript
TypeError raised by reading a property of undefined or null;
`stackUnderflow` models the structured parse error the spec names (no
code path of Stack.ts produces it). -/
inductive StackErr where
  | typeError
  | stackUnderflow
deriving DecidableEq

/-- Modelled from the spec: the factory's start builder (BaseItems.ts and
StackItemFactory.ts are not in src/) makes the sentinel item: kind
'start', open, no own env, no children; it stores the global record the
constructor passes it. -/
def mkStartItem (g : EnvRef) : StackItem :=
  { kind := "start", isOpen := true, env := none, global := some g, nodes := [] }

/-- Modelled from the spec: the factory's 'mml' builder, used by Push to
wrap a raw node, makes a closed item holding that node, with no own env;
Push assigns its global. -/
def mkMmlItem (n : MmlNode) : StackItem :=
  { kind := "mml", isOpen := false, env := none, global := none, nodes := [n] }

/-- The Stack constructor: the global record is allocated as
(isInner: inner); the stack starts with the sentinel; a supplied initial
environment becomes the sentinel's own env; the current environment is
then set to the sentinel's env. -/
def mkStack (initialEnv : Option EnvRef) (inner : Bool) (st : Store) : StackState :=
  let p := st.alloc [("isInner", EnvVal.bool inner)]
  let start0 := mkStartItem p.2
  let start1 := match initialEnv with
    | some r => { start0 with env := some r }
    | none => start0
  { global := p.2, stack := [start1], env := start1.env, store := p.1 }

/-- Stack.Top(n): the item n positions from the top (1 = topmost), or null
when the stack holds fewer than n items; a pure lookup that mutates
nothing.  The source reads the array at index `stack.length - n`, which
in this head-is-top model is the reverse list at that index. -/
def StackState.Top (s : StackState) (n : Nat) : Option StackItem :=
  if s.stack.length < n then none
  else s.stack.reverse.get? (s.stack.length - n)

/-- Stack.Top() with the argument omitted: the source defaults n to 1. -/
def StackState.TopDefault (s : StackState) : Option StackItem := s.Top 1

/-- Stack.Pop: removes the top item; when the removed item is not open its
env field is deleted; the current environment becomes the new top's env,
or a freshly allocated empty record when the stack became empty.  On an
empty stack the source reads `.isOpen` of undefined, a TypeError. -/
def StackState.pop (s : StackState) : Except StackErr (StackItem × StackState) :=
  match s.stack with
  | [] => .error .typeError
  | item :: rest =>
    let item' := if item.isOpen then item else { item with env := none }
    match rest with
    | top :: _ => .ok (item', { s with stack := rest, env := top.env })
    | [] =>
      let p := s.store.alloc []
      .ok (item', { s with stack := [], env := some p.2, store := p.1 })

/-- Modelled from the spec: a stack item's last-child accessor
(StackItem.ts is not in src/): the most recently accumulated child. -/
def itemLast (i : StackItem) : Option MmlNode := i.nodes.getLast?

/-- Modelled from the spec: a stack item's own Pop (StackItem.ts is not in
src/): removes and returns the most recently accumulated child node. -/
def itemPop (i : StackItem) : Option MmlNode × StackItem :=
  (i.nodes.getLast?, { i with nodes := i.nodes.dropLast })

/-- Stack.Prev(noPop): reads Top() and either peeks the top item's last
child or removes that child via the item's own Pop.  On an empty stack
Top() is null and the member access on it throws a TypeError. -/
def StackState.prev (s : StackState) (noPop : Bool) :
    Except StackErr (Option MmlNode × StackState) :=
  match s.stack with
  | [] => .error .typeError
  | top :: rest =>
    if noPop then .ok (itemLast top, s)
    else
      let p := itemPop top
      .ok (p.1, { s with stack := p.2 :: rest })

/-- An argument of Stack.Push: a stack item, a raw Mml node (to be
wrapped), or a null/undefined entry that the falsy guard skips. -/
inductive PushArg where
  | item (i : StackItem)
  | node (n : MmlNode)
  | null
deriving DecidableEq

/-- A checkItem result, following the branches of Stack.Push: a truthy or
falsy value, a single replacement item, or a replacement array. -/
inductive CheckResult where
  | bool (b : Bool)
  | item (i : StackItem)
  | list (l : List PushArg)
deriving DecidableEq

/-- Argument preparation in Stack.Push: null is skipped, a raw node is
wrapped through the factory's 'mml' builder, an item passes through. -/
def argItem : PushArg → Option StackItem
  | .item i => some i
  | .node n => some (mkMmlItem n)
  | .null => none

/-- The item with its global assigned to the Stack's global record, as
Push does unconditionally before the checkItem dispatch. -/
def withGlobal (s : StackState) (i : StackItem) : StackItem :=
  { i with global := some s.global }

/-- The checkItem dispatch of Stack.Push: with a non-empty stack the top
item's checkItem is consulted; with an empty stack the result is treated
as true.  The behaviour of the external item variants is the parameter
`check`. -/
def dispatchResult (check : StackItem → StackItem → CheckResult)
    (s : StackState) (item : StackItem) : CheckResult :=
  match s.stack with
  | [] => .bool true
  | top :: _ => check top item

/-- The pushed item as the accept branch leaves it on the stack: an item
with its own env keeps it; an item without one inherits the current
environment by reference. -/
def placeItem (s : StackState) (item : StackItem) : StackItem :=
  match item.env with
  | some _ => item
  | none => { item with env := s.env }

/-- The accept branch of Stack.Push: the item is appended; when it carries
its own env record, every key of the current environment is overlaid into
that record in place and the record becomes the new current environment;
otherwise the item inherits the current environment by reference and the
current environment is unchanged. -/
def acceptStep (s : StackState) (item : StackItem) : StackState :=
  match item.env with
  | some r =>
    { s with
      stack := item :: s.stack
      env := some r
      store := s.store.set r (overlayInto (s.store.get r) s.curEnvMap) }
  | none =>
    { s with stack := { item with env := s.env } :: s.stack }

/-- The Pop() call inside Push's replacement branches, result discarded. -/
def popDrop (s : StackState) : Option StackState :=
  match s.pop with
  | .ok (_, s1) => some s1
  | .error _ => none

/-- Stack.Push, processing its arguments left to right.  The recursion
through checkItem replacement results is bounded by fuel (the source
recurses without bound); every theorem below supplies enough fuel. -/
def pushList (check : StackItem → StackItem → CheckResult) :
    Nat → StackState → List PushArg → Option StackState
  | _, s, [] => some s
  | 0, _, _ :: _ => none
  | fuel + 1, s, arg :: rest =>
    match argItem arg with
    | none => pushList check fuel s rest
    | some raw =>
      let item := withGlobal s raw
      match dispatchResult check s item with
      | .bool true => pushList check fuel (acceptStep s item) rest
      | .bool false => pushList check fuel s rest
      | .item repl =>
        match popDrop s with
        | none => none
        | some s1 =>
          match pushList check fuel s1 [PushArg.item repl] with
          | none => none
          | some s2 => pushList check fuel s2 rest
      | .list l =>
        match popDrop s with
        | none => none
        | some s1 =>
          match pushList check fuel s1 l with
          | none => none
          | some s2 => pushList check fuel s2 rest

/-- A sequence of n Stack.Pop calls. -/
def popN : Nat → StackState → Option StackState
  | 0, s => some s
  | n + 1, s =>
    match s.pop with
    | .ok (_, s1) => popN n s1
    | .error _ => none

/-- The current-environment invariant: the current environment equals the
top item's env when the stack is non-empty, and is an allocated empty
record when the stack is empty. -/
def EnvInv (s : StackState) : Prop :=
  match s.stack with
  | top :: _ => s.env = top.env
  | [] => ∃ r, s.env = some r ∧ s.store.get r = []

/-- The global-record invariant: every item on the stack references the
Stack's own global record. -/
def GlobalInv (s : StackState) : Prop :=
  ∀ i ∈ s.stack, i.global = some s.global

/-- The states reachable from a freshly constructed Stack by sequences of
Push and Pop calls. -/
inductive Reached (check : StackItem → StackItem → CheckResult) : StackState → Prop where
  | init (initialEnv : Option EnvRef) (inner : Bool) (st : Store) :
      Reached check (mkStack initialEnv inner st)
  | push (s s' : StackState) (fuel : Nat) (args : List PushArg) :
      Reached check s → pushList check fuel s args = some s' → Reached check s'
  | pop (s s' : StackState) (i : StackItem) :
      Reached check s → s.pop = .ok (i, s') → Reached check s'

/-- Plain acceptance of a single push: the checkItem dispatch says true. -/
def accepts (check : StackItem → StackItem → CheckResult)
    (s : StackState) (item : StackItem) : Prop :=
  dispatchResult check s item = .bool true

/-- Every push of the sequence is plainly accepted by checkItem. -/
def PlainAccepted (check : StackItem → StackItem → CheckResult) :
    StackState → List StackItem → Prop
  | _, [] => True
  | s, i :: tl =>
    accepts check s (withGlobal s i) ∧
    PlainAccepted check (acceptStep s (withGlobal s i)) tl

/-- The state after a plainly accepted sequence of pushes. -/
def pushPlain : StackState → List StackItem → StackState
  | s, [] => s
  | s, i :: tl => pushPlain (acceptStep s (withGlobal s i)) tl

/-! Concrete objects used to instantiate the theorems below. -/

/-- A checkItem behaviour that accepts every push. -/
def checkAlways : StackItem → StackItem → CheckResult := fun _ _ => .bool true

/-- A checkItem behaviour that rejects every push. -/
def checkReject : StackItem → StackItem → CheckResult := fun _ _ => .bool false

/-- A concrete store: record 0 is a global record, record 1 holds
(a: 0, b: 2), record 2 holds (a: 1). -/
def exStore : Store :=
  ⟨[[("isInner", EnvVal.bool false)],
    [("a", EnvVal.num 0), ("b", EnvVal.num 2)],
    [("a", EnvVal.num 1)]]⟩

/-- A concrete open item whose env is record 1. -/
def exTop : StackItem :=
  { kind := "open", isOpen := true, env := some 1, global := some 0, nodes := [] }

/-- A concrete stack whose current environment is record 1 = (a: 0, b: 2). -/
def exState : StackState :=
  { global := 0, stack := [exTop], env := some 1, store := exStore }

/-- A concrete item carrying its own pre-set env record 2 = (a: 1). -/
def exItem : StackItem :=
  { kind := "frame", isOpen := true, env := some 2, global := none, nodes := [] }

/-- A concrete sentinel item. -/
def exBottom : StackItem := mkStartItem 0

/-- A concrete two-item stack: exTop above the sentinel. -/
def exState2 : StackState :=
  { global := 0, stack := [exTop, exBottom], env := some 1, store := exStore }

/-- Concrete replacement items for the checkItem-returns-a-list scenario. -/
def exX : StackItem :=
  { kind := "x", isOpen := true, env := none, global := none, nodes := [] }

def exY : StackItem :=
  { kind := "y", isOpen := true, env := none, global := none, nodes := [] }

/-- A checkItem behaviour under which the item of kind 'open' answers a
push with the replacement list (exX, exY) and everything else accepts. -/
def checkReplace : StackItem → StackItem → CheckResult :=
  fun top _ =>
    if top.kind = "open" then .list [PushArg.item exX, PushArg.item exY]
    else .bool true

/-- A concrete candidate whose push triggers the replacement list. -/
def exCand : StackItem :=
  { kind := "close", isOpen := false, env := none, global := none, nodes := [] }

/-- A concrete state whose item sequence is empty. -/
def exEmpty : StackState :=
  { global := 0, stack := [], env := some 0, store := ⟨[[]]⟩ }

/-- A concrete closed item whose env is record 1. -/
def exClosedTop : StackItem :=
  { kind := "mml", isOpen := false, env := some 1, global := some 0, nodes := [] }

/-- A concrete stack with a closed item on top of the sentinel. -/
def exState6 : StackState :=
  { global := 0, stack := [exClosedTop, exBottom], env := some 1, store := exStore }

/-- The item returned by popping exState6: its env field deleted. -/
def exPopped6 : StackItem := { exClosedTop with env := none }

/-- The state after popping exState6. -/
def exAfter6 : StackState :=
  { global := 0, stack := [exBottom], env := none, store := exStore }

/-- A freshly constructed Stack over an empty store. -/
def wInit : StackState := mkStack none false ⟨[]⟩

/-- A concrete open item with no env of its own. -/
def exPlain : StackItem :=
  { kind := "grp", isOpen := true, env := none, global := none, nodes := [] }

/-- The state after Push pops exState2's top during the replacement
branch. -/
def w2S1 : StackState :=
  { global := 0, stack := [exBottom], env := none, store := exStore }

/-- The first replacement element with its global assigned. -/
def w2X : StackItem := withGlobal w2S1 exX

/-- The state after the first replacement element is accepted. -/
def w2S2 : StackState := acceptStep w2S1 w2X

/-- The second replacement element with its global assigned. -/
def w2Y : StackItem := withGlobal w2S2 exY

/-! Basic lemmas about the embedded operations. -/

lemma pushList_nil (check : StackItem → StackItem → CheckResult) (fuel : Nat)
    (s : StackState) : pushList check fuel s [] = some s := by
  cases fuel <;> rfl

lemma pushList_cons_null (check : StackItem → StackItem → CheckResult) (fuel : Nat)
    (s : StackState) (arg : PushArg) (rest : List PushArg) (ha : argItem arg = none) :
    pushList check (fuel + 1) s (arg :: rest) = pushList check fuel s rest := by
  simp [pushList, ha]

lemma pushList_cons_true (check : StackItem → StackItem → CheckResult) (fuel : Nat)
    (s : StackState) (arg : PushArg) (raw : StackItem) (rest : List PushArg)
    (ha : argItem arg = some raw)
    (hd : dispatchResult check s (withGlobal s raw) = .bool true) :
    pushList check (fuel + 1) s (arg :: rest) =
      pushList check fuel (acceptStep s (withGlobal s raw)) rest := by
  simp [pushList, ha, hd]

lemma pushList_cons_false (check : StackItem → StackItem → CheckResult) (fuel : Nat)
    (s : StackState) (arg : PushArg) (raw : StackItem) (rest : List PushArg)
    (ha : argItem arg = some raw)
    (hd : dispatchResult check s (withGlobal s raw) = .bool false) :
    pushList check (fuel + 1) s (arg :: rest) = pushList check fuel s rest := by
  simp [pushList, ha, hd]

lemma pushList_cons_list (check : StackItem → StackItem → CheckResult) (fuel : Nat)
    (s s1 s2 : StackState) (arg : PushArg) (raw : StackItem) (l : List PushArg)
    (rest : List PushArg)
    (ha : argItem arg = some raw)
    (hd : dispatchResult check s (withGlobal s raw) = .list l)
    (hp : popDrop s = some s1)
    (hi : pushList check fuel s1 l = some s2) :
    pushList check (fuel + 1) s (arg :: rest) = pushList check fuel s2 rest := by
  simp [pushList, ha, hd, hp, hi]

lemma pushList_single_accept (check : StackItem → StackItem → CheckResult) (fuel : Nat)
    (s : StackState) (i : StackItem)
    (hd : dispatchResult check s (withGlobal s i) = .bool true) :
    pushList check (fuel + 1) s [PushArg.item i] = some (acceptStep s (withGlobal s i)) := by
  rw [pushList_cons_true check fuel s (PushArg.item i) i [] rfl hd, pushList_nil]

lemma acceptStep_stack (s : StackState) (i : StackItem) :
    (acceptStep s i).stack = placeItem s i :: s.stack := by
  cases h : i.env <;> simp [acceptStep, placeItem, h]

lemma acceptStep_global (s : StackState) (i : StackItem) :
    (acceptStep s i).global = s.global := by
  cases h : i.env <;> simp [acceptStep, h]

lemma placeItem_global (s : StackState) (i : StackItem) :
    (placeItem s i).global = i.global := by
  cases h : i.env <;> simp [placeItem, h]

lemma acceptStep_envInv (s : StackState) (i : StackItem) : EnvInv (acceptStep s i) := by
  cases h : i.env <;> simp [EnvInv, acceptStep, h]

lemma pop_stack (s s' : StackState) (i top : StackItem) (rest : List StackItem)
    (hstack : s.stack = i :: rest) (h : s.pop = .ok (top, s')) : s'.stack = rest := by
  cases rest <;> simp [StackState.pop, hstack] at h <;> simp [← h.2]

lemma pop_global (s s' : StackState) (i : StackItem)
    (h : s.pop = .ok (i, s')) : s'.global = s.global := by
  match hstack : s.stack with
  | [] => simp [StackState.pop, hstack] at h
  | a :: rest =>
    cases rest <;> simp [StackState.pop, hstack] at h <;> simp [← h.2]

lemma pop_envInv (s s' : StackState) (i : StackItem)
    (h : s.pop = .ok (i, s')) : EnvInv s' := by
  match hstack : s.stack with
  | [] => simp [StackState.pop, hstack] at h
  | a :: rest =>
    match rest with
    | [] =>
      simp [StackState.pop, hstack, Store.alloc] at h
      rw [← h.2]
      refine ⟨s.store.recs.length, rfl, ?_⟩
      simp [Store.get, List.getElem?_concat_length]
    | top :: tl =>
      simp [StackState.pop, hstack] at h
      rw [← h.2]
      simp [EnvInv]

lemma popDrop_envInv (s s1 : StackState) (h : popDrop s = some s1) : EnvInv s1 := by
  unfold popDrop at h
  match hp : s.pop with
  | .error e => rw [hp] at h; exact absurd h (by simp)
  | .ok (i, s') =>
    rw [hp] at h
    simp at h
    rw [← h]
    exact pop_envInv s s' i hp

lemma popDrop_global (s s1 : StackState) (h : popDrop s = some s1) :
    s1.global = s.global := by
  unfold popDrop at h
  match hp : s.pop with
  | .error e => rw [hp] at h; exact absurd h (by simp)
  | .ok (i, s') =>
    rw [hp] at h
    simp at h
    rw [← h]
    exact pop_global s s' i hp

lemma popDrop_stack (s s1 : StackState) (i : StackItem) (rest : List StackItem)
    (hstack : s.stack = i :: rest) (h : popDrop s = some s1) : s1.stack = rest := by
  unfold popDrop at h
  match hp : s.pop with
  | .error e => rw [hp] at h; exact absurd h (by simp)
  | .ok (j, s') =>
    rw [hp] at h
    simp at h
    rw [← h]
    exact pop_stack s s' i j rest hstack hp

lemma mkStack_envInv (initialEnv : Option EnvRef) (inner : Bool) (st : Store) :
    EnvInv (mkStack initialEnv inner st) := by
  cases initialEnv <;> simp [mkStack, EnvInv, mkStartItem]

lemma acceptStep_globalInv (s : StackState) (i : StackItem) (hg : GlobalInv s)
    (hi : i.global = some s.global) : GlobalInv (acceptStep s i) := by
  intro j hj
  rw [acceptStep_global]
  rw [acceptStep_stack] at hj
  rcases List.mem_cons.mp hj with hj | hj
  · rw [hj, placeItem_global]; exact hi
  · exact hg j hj

lemma pop_globalInv (s s' : StackState) (i : StackItem) (h : s.pop = .ok (i, s'))
    (hg : GlobalInv s) : GlobalInv s' := by
  intro j hj
  rw [pop_global s s' i h]
  match hstack : s.stack with
  | [] => simp [StackState.pop, hstack] at h
  | a :: rest =>
    rw [pop_stack s s' a i rest hstack h] at hj
    exact hg j (hstack ▸ List.mem_cons_of_mem a hj)

lemma mkStack_globalInv (initialEnv : Option EnvRef) (inner : Bool) (st : Store) :
    GlobalInv (mkStack initialEnv inner st) := by
  intro j hj
  cases initialEnv <;> simp [mkStack, mkStartItem] at hj ⊢ <;> simp [hj]

lemma pushList_envInv (check : StackItem → StackItem → CheckResult) :
    ∀ (fuel : Nat) (s : StackState) (args : List PushArg) (s' : StackState),
      EnvInv s → pushList check fuel s args = some s' → EnvInv s' := by
  intro fuel
  induction fuel with
  | zero =>
    intro s args s' hinv hpush
    cases args with
    | nil => rw [pushList_nil] at hpush; cases hpush; exact hinv
    | cons a rest => simp [pushList] at hpush
  | succ fuel ih =>
    intro s args s' hinv hpush
    cases args with
    | nil => rw [pushList_nil] at hpush; cases hpush; exact hinv
    | cons arg rest =>
      cases ha : argItem arg with
      | none =>
        rw [pushList_cons_null check fuel s arg rest ha] at hpush
        exact ih s rest s' hinv hpush
      | some raw =>
        cases hd : dispatchResult check s (withGlobal s raw) with
        | bool b =>
          cases b with
          | true =>
            rw [pushList_cons_true check fuel s arg raw rest ha hd] at hpush
            exact ih _ rest s' (acceptStep_envInv _ _) hpush
          | false =>
            rw [pushList_cons_false check fuel s arg raw rest ha hd] at hpush
            exact ih s rest s' hinv hpush
        | item repl =>
          simp only [pushList, ha, hd] at hpush
          cases hp : popDrop s with
          | none => simp [hp] at hpush
          | some s1 =>
            simp only [hp] at hpush
            cases hi : pushList check fuel s1 [PushArg.item repl] with
            | none => simp [hi] at hpush
            | some s2 =>
              simp only [hi] at hpush
              exact ih s2 rest s'
                (ih s1 [PushArg.item repl] s2 (popDrop_envInv s s1 hp) hi) hpush
        | list l =>
          simp only [pushList, ha, hd] at hpush
          cases hp : popDrop s with
          | none => simp [hp] at hpush
          | some s1 =>
            simp only [hp] at hpush
            cases hi : pushList check fuel s1 l with
            | none => simp [hi] at hpush
            | some s2 =>
              simp only [hi] at hpush
              exact ih s2 rest s' (ih s1 l s2 (popDrop_envInv s s1 hp) hi) hpush

lemma popDrop_globalInv (s s1 : StackState) (h : popDrop s = some s1)
    (hg : GlobalInv s) : GlobalInv s1 := by
  unfold popDrop at h
  match hp : s.pop with
  | .error e => rw [hp] at h; exact absurd h (by simp)
  | .ok (i, s') =>
    rw [hp] at h
    simp at h
    rw [← h]
    exact pop_globalInv s s' i hp hg

lemma pushList_globalInv (check : StackItem → StackItem → CheckResult) :
    ∀ (fuel : Nat) (s : StackState) (args : List PushArg) (s' : StackState),
      GlobalInv s → pushList check fuel s args = some s' →
      GlobalInv s' ∧ s'.global = s.global := by
  intro fuel
  induction fuel with
  | zero =>
    intro s args s' hg hpush
    cases args with
    | nil => rw [pushList_nil] at hpush; cases hpush; exact ⟨hg, rfl⟩
    | cons a rest => simp [pushList] at hpush
  | succ fuel ih =>
    intro s args s' hg hpush
    cases args with
    | nil => rw [pushList_nil] at hpush; cases hpush; exact ⟨hg, rfl⟩
    | cons arg rest =>
      cases ha : argItem arg with
      | none =>
        rw [pushList_cons_null check fuel s arg rest ha] at hpush
        exact ih s rest s' hg hpush
      | some raw =>
        cases hd : dispatchResult check s (withGlobal s raw) with
        | bool b =>
          cases b with
          | true =>
            rw [pushList_cons_true check fuel s arg raw rest ha hd] at hpush
            have hstep := acceptStep_globalInv s (withGlobal s raw) hg rfl
            have := ih _ rest s' hstep hpush
            exact ⟨this.1, by rw [this.2, acceptStep_global]⟩
          | false =>
            rw [pushList_cons_false check fuel s arg raw rest ha hd] at hpush
            exact ih s rest s' hg hpush
        | item repl =>
          simp only [pushList, ha, hd] at hpush
          cases hp : popDrop s with
          | none => simp [hp] at hpush
          | some s1 =>
            simp only [hp] at hpush
            cases hi : pushList check fuel s1 [PushArg.item repl] with
            | none => simp [hi] at hpush
            | some s2 =>
              simp only [hi] at hpush
              have h1 := ih s1 [PushArg.item repl] s2 (popDrop_globalInv s s1 hp hg) hi
              have h2 := ih s2 rest s' h1.1 hpush
              exact ⟨h2.1, by rw [h2.2, h1.2, popDrop_global s s1 hp]⟩
        | list l =>
          simp only [pushList, ha, hd] at hpush
          cases hp : popDrop s with
          | none => simp [hp] at hpush
          | some s1 =>
            simp only [hp] at hpush
            cases hi : pushList check fuel s1 l with
            | none => simp [hi] at hpush
            | some s2 =>
              simp only [hi] at hpush
              have h1 := ih s1 l s2 (popDrop_globalInv s s1 hp hg) hi
              have h2 := ih s2 rest s' h1.1 hpush
              exact ⟨h2.1, by rw [h2.2, h1.2, popDrop_global s s1 hp]⟩

/-! Claim theorems. -/

/-- C3 (amended): calling Pop (or Prev) on a Stack whose item sequence is
empty fails — not a silent no-op and not a successful return — but the
failure is the JavaScript TypeError raised by reading a property of
undefined or null (Stack.ts performs no underflow check), not the
structured StackUnderflow parse error the claim names. -/
theorem claim_C3_empty_pop_fails (s : StackState) (hs : s.stack = []) :
    s.pop = .error .typeError ∧ ∀ noPop, s.prev noPop = .error .typeError := by
  constructor
  · simp [StackState.pop, hs]
  · intro noPop; simp [StackState.prev, hs]

/-- C3 counterexample: on a concrete empty stack, Pop fails with the raw
TypeError, which is not the structured StackUnderflow error claimed. -/
theorem claim_C3_counterexample :
    exEmpty.pop = .error .typeError ∧
    exEmpty.prev false = .error .typeError ∧
    StackErr.typeError ≠ StackErr.stackUnderflow :=
  ⟨rfl, rfl, by decide⟩

theorem claim_C3_witness :
    exEmpty.stack = [] ∧
    (exEmpty.pop = .error .typeError ∧
     ∀ noPop, exEmpty.prev noPop = .error .typeError) :=
  ⟨rfl, claim_C3_empty_pop_fails exEmpty rfl⟩

/-- C4: in every state reachable by construction and sequences of Push and
Pop, the current environment equals the top item's env when the stack is
non-empty, and is an (allocated) empty record when the stack is empty. -/
theorem claim_C4_env_invariant (check : StackItem → StackItem → CheckResult)
    (s : StackState) (h : Reached check s) : EnvInv s := by
  induction h with
  | init e inner st => exact mkStack_envInv e inner st
  | push s s' fuel args hr hp ih => exact pushList_envInv check fuel s args s' ih hp
  | pop s s' i hr hp ih => exact pop_envInv s s' i hp

theorem claim_C4_witness : EnvInv wInit :=
  claim_C4_env_invariant checkAlways wInit (Reached.init none false ⟨[]⟩)

/-- C5: in every state reachable by construction and sequences of Push and
Pop, every item remaining on the stack has its global field equal (as a
reference) to the Stack's own global record; the pushList definition
assigns `withGlobal` unconditionally before the checkItem dispatch runs. -/
theorem claim_C5_global_identity (check : StackItem → StackItem → CheckResult)
    (s : StackState) (h : Reached check s) : GlobalInv s := by
  induction h with
  | init e inner st => exact mkStack_globalInv e inner st
  | push s s' fuel args hr hp ih => exact (pushList_globalInv check fuel s args s' ih hp).1
  | pop s s' i hr hp ih => exact pop_globalInv s s' i hp ih

theorem claim_C5_witness : GlobalInv (mkStack (some 5) true ⟨[]⟩) :=
  claim_C5_global_identity checkAlways _ (Reached.init (some 5) true ⟨[]⟩)

/-- C6: popping a non-open item returns it with its env field unset, and
the remaining stack (in particular the item that becomes the new top) is
exactly the old stack without its head, so no other item's env changes;
popping an open item returns it with its env intact. -/
theorem claim_C6_closed_item_cleanup (s : StackState) (i i' : StackItem)
    (rest : List StackItem) (s' : StackState)
    (hs : s.stack = i :: rest) (hpop : s.pop = .ok (i', s')) :
    (i.isOpen = false → i'.env = none) ∧
    (i.isOpen = true → i'.env = i.env) ∧
    s'.stack = rest := by
  cases h : i.isOpen with
  | false =>
    cases rest <;> simp [StackState.pop, hs, h, Store.alloc] at hpop <;>
      obtain ⟨h1, h2⟩ := hpop <;> subst h1 <;> subst h2 <;>
      exact ⟨fun _ => rfl, fun hcon => absurd hcon (by decide), rfl⟩
  | true =>
    cases rest <;> simp [StackState.pop, hs, h, Store.alloc] at hpop <;>
      obtain ⟨h1, h2⟩ := hpop <;> subst h1 <;> subst h2 <;>
      exact ⟨fun hcon => absurd hcon (by decide), fun _ => rfl, rfl⟩

theorem claim_C6_witness :
    exState6.stack = exClosedTop :: [exBottom] ∧
    exState6.pop = .ok (exPopped6, exAfter6) ∧
    ((exClosedTop.isOpen = false → exPopped6.env = none) ∧
     (exClosedTop.isOpen = true → exPopped6.env = exClosedTop.env) ∧
     exAfter6.stack = [exBottom]) :=
  ⟨rfl, rfl,
    claim_C6_closed_item_cleanup exState6 exClosedTop exPopped6 [exBottom] exAfter6 rfl rfl⟩

/-- C7: Top(n) with n greater than the stack depth returns null rather
than failing; Top is a pure lookup returning no modified state; with the
argument omitted it defaults n to 1 and yields the topmost item. -/
theorem claim_C7_top_beyond_depth (s : StackState) (n : Nat)
    (h : s.stack.length < n) :
    s.Top n = none ∧ s.TopDefault = s.Top 1 ∧ s.Top 1 = s.stack.head? := by
  refine ⟨by simp [StackState.Top, h], rfl, ?_⟩
  cases hst : s.stack with
  | nil => simp [StackState.Top, hst]
  | cons a tl =>
    simp [StackState.Top, hst, List.getElem?_concat_length]

theorem claim_C7_witness :
    exState.stack.length < 5 ∧
    (exState.Top 5 = none ∧ exState.TopDefault = exState.Top 1 ∧
     exState.Top 1 = exState.stack.head?) :=
  ⟨by decide, claim_C7_top_beyond_depth exState 5 (by decide)⟩

/-- C9: when the top item's checkItem answers a pushed argument with
false, Push discards that argument with no effect at all: processing the
argument list equals processing of the remaining arguments from the
unchanged state, so the item sequence, the depth, the current environment
and the top item's accumulated children are untouched. -/
theorem claim_C9_reject_is_noop (check : StackItem → StackItem → CheckResult)
    (fuel : Nat) (s : StackState) (top : StackItem) (tl : List StackItem)
    (arg : PushArg) (raw : StackItem) (restArgs : List PushArg)
    (hs : s.stack = top :: tl)
    (ha : argItem arg = some raw)
    (hd : check top (withGlobal s raw) = .bool false) :
    pushList check (fuel + 1) s (arg :: restArgs) = pushList check fuel s restArgs := by
  apply pushList_cons_false check fuel s arg raw restArgs ha
  simp [dispatchResult, hs, hd]

theorem claim_C9_witness :
    exState.stack = exTop :: [] ∧
    argItem (PushArg.node ⟨7⟩) = some (mkMmlItem ⟨7⟩) ∧
    checkReject exTop (withGlobal exState (mkMmlItem ⟨7⟩)) = .bool false ∧
    pushList checkReject 1 exState [PushArg.node ⟨7⟩] = pushList checkReject 0 exState [] :=
  ⟨rfl, rfl, rfl,
    claim_C9_reject_is_noop checkReject 0 exState exTop [] (PushArg.node ⟨7⟩)
      (mkMmlItem ⟨7⟩) [] rfl rfl rfl⟩

/-! Lemmas about the overlay and the record store, for C1 and C10. -/

lemma envmap_get_set_self (m : EnvMap) (k : String) (v : EnvVal) :
    (EnvMap.set m k v).get k = some v := by
  induction m with
  | nil => simp [EnvMap.set, EnvMap.get]
  | cons hd tl ih =>
    obtain ⟨k0, v0⟩ := hd
    by_cases hk : k0 = k <;> simp [EnvMap.set, EnvMap.get, hk, ih]

lemma envmap_get_set_ne (m : EnvMap) (k k' : String) (v : EnvVal) (h : ¬ k = k') :
    (EnvMap.set m k v).get k' = m.get k' := by
  induction m with
  | nil => simp [EnvMap.set, EnvMap.get, h]
  | cons hd tl ih =>
    obtain ⟨k0, v0⟩ := hd
    by_cases hk : k0 = k
    · subst hk; simp [EnvMap.set, EnvMap.get, h]
    · simp only [EnvMap.set, if_neg hk]
      by_cases hk' : k0 = k' <;> simp [EnvMap.get, hk', ih]

lemma envmap_get_none_of_not_mem (m : EnvMap) (k : String)
    (h : ¬ k ∈ m.map Prod.fst) : m.get k = none := by
  induction m with
  | nil => rfl
  | cons hd tl ih =>
    simp only [List.map_cons, List.mem_cons] at h
    push_neg at h
    have hk : ¬ hd.1 = k := fun he => h.1 he.symm
    obtain ⟨k0, v0⟩ := hd
    simp only [EnvMap.get, if_neg hk]
    exact ih h.2

lemma overlayInto_get_none (src : EnvMap) : ∀ (t : EnvMap) (k : String),
    EnvMap.get src k = none → EnvMap.get (overlayInto t src) k = EnvMap.get t k := by
  induction src with
  | nil => intro t k _; rfl
  | cons hd tl ih =>
    intro t k hget
    obtain ⟨k0, v0⟩ := hd
    have hk : ¬ k0 = k := by
      intro hkk
      simp [EnvMap.get, hkk] at hget
    have htl : EnvMap.get tl k = none := by
      simpa [EnvMap.get, hk] using hget
    show EnvMap.get (overlayInto (EnvMap.set t k0 v0) tl) k = EnvMap.get t k
    rw [ih (EnvMap.set t k0 v0) k htl, envmap_get_set_ne t k0 k v0 hk]

lemma overlayInto_get_some (src : EnvMap) : ∀ (t : EnvMap) (k : String) (v : EnvVal),
    keysNodup src → EnvMap.get src k = some v → EnvMap.get (overlayInto t src) k = some v := by
  induction src with
  | nil => intro t k v _ h; simp [EnvMap.get] at h
  | cons hd tl ih =>
    intro t k v hnd hget
    obtain ⟨k0, v0⟩ := hd
    have hnd' : ¬ k0 ∈ tl.map Prod.fst ∧ keysNodup tl := by
      simpa [keysNodup] using hnd
    by_cases hk : k0 = k
    · subst hk
      have hv : v0 = v := by simpa [EnvMap.get] using hget
      have htl : EnvMap.get tl k0 = none := envmap_get_none_of_not_mem tl k0 hnd'.1
      show EnvMap.get (overlayInto (EnvMap.set t k0 v0) tl) k0 = some v
      rw [overlayInto_get_none tl (EnvMap.set t k0 v0) k0 htl,
        envmap_get_set_self, hv]
    · have htl : EnvMap.get tl k = some v := by simpa [EnvMap.get, hk] using hget
      show EnvMap.get (overlayInto (EnvMap.set t k0 v0) tl) k = some v
      exact ih (EnvMap.set t k0 v0) k v hnd'.2 htl

lemma store_get_set_self (st : Store) (r : EnvRef) (m : EnvMap)
    (h : r < st.recs.length) : (st.set r m).get r = m := by
  simp [Store.get, Store.set, List.getElem?_set_eq_of_lt _ h]

lemma store_get_set_ne (st : Store) (r r' : EnvRef) (m : EnvMap) (h : r ≠ r') :
    (st.set r m).get r' = st.get r' := by
  simp [Store.get, Store.set, List.getElem?_set_ne h]

/-- C1 counterexample: pushing exItem, whose own env record is (a: 1),
onto exState, whose current environment is (a: 0, b: 2), with the top
item accepting, yields the current environment (a: 0, b: 2): the item's
own key a has been overwritten by the stack's value, so the result is not
the claimed (a: 1, b: 2). -/
theorem claim_C1_counterexample :
    (pushList checkAlways 1 exState [PushArg.item exItem]).map
        (fun s' => s'.curEnvMap) =
      some [("a", EnvVal.num 0), ("b", EnvVal.num 2)] ∧
    EnvMap.get [("a", EnvVal.num 0), ("b", EnvVal.num 2)] "a" ≠ some (EnvVal.num 1) :=
  ⟨rfl, by decide⟩

/-- C1 (amended): when Push accepts an item that carries its own env
record, the overlay copies every key of the stack's current environment
into the item's record, overwriting keys already set on the item (the
stack's current value wins); keys present only on the item survive; the
merged record becomes the new current environment.  In the claim's
scenario — current environment (a: 0, b: 2), item env (a: 1) — the new
current environment is therefore (a: 0, b: 2), not (a: 1, b: 2). -/
theorem claim_C1_overlay_amended (check : StackItem → StackItem → CheckResult)
    (fuel : Nat) (s : StackState) (top : StackItem) (tl : List StackItem)
    (item : StackItem) (r : EnvRef)
    (hs : s.stack = top :: tl)
    (hi : item.env = some r)
    (hd : check top (withGlobal s item) = .bool true)
    (hr : r < s.store.recs.length)
    (hnd : keysNodup s.curEnvMap) :
    ∃ s', pushList check (fuel + 1) s [PushArg.item item] = some s' ∧
      s'.env = some r ∧
      (∀ k v, s.curEnvMap.get k = some v → (s'.store.get r).get k = some v) ∧
      (∀ k, s.curEnvMap.get k = none →
        (s'.store.get r).get k = (s.store.get r).get k) := by
  have hda : dispatchResult check s (withGlobal s item) = .bool true := by
    simp [dispatchResult, hs, hd]
  have hie : (withGlobal s item).env = some r := hi
  refine ⟨acceptStep s (withGlobal s item),
    pushList_single_accept check fuel s item hda, ?_, ?_, ?_⟩
  · simp [acceptStep, hie]
  · intro k v hk
    simp only [acceptStep, hie]
    rw [store_get_set_self s.store r _ hr]
    exact overlayInto_get_some s.curEnvMap (s.store.get r) k v hnd hk
  · intro k hk
    simp only [acceptStep, hie]
    rw [store_get_set_self s.store r _ hr]
    exact overlayInto_get_none s.curEnvMap (s.store.get r) k hk

theorem claim_C1_witness :
    exState.stack = exTop :: [] ∧ exItem.env = some 2 ∧
    checkAlways exTop (withGlobal exState exItem) = .bool true ∧
    2 < exState.store.recs.length ∧ keysNodup exState.curEnvMap ∧
    (∃ s', pushList checkAlways (0 + 1) exState [PushArg.item exItem] = some s' ∧
      s'.env = some 2 ∧
      (∀ k v, exState.curEnvMap.get k = some v → (s'.store.get 2).get k = some v) ∧
      (∀ k, exState.curEnvMap.get k = none →
        (s'.store.get 2).get k = (exState.store.get 2).get k)) :=
  ⟨rfl, rfl, rfl, by decide, by decide,
    claim_C1_overlay_amended checkAlways 0 exState exTop [] exItem 2 rfl rfl rfl
      (by decide) (by decide)⟩

/-- C10: when Push accepts an item carrying its own env record, the
overlay mutates that record in place: the new current environment is the
very reference the item carried (s'.env = item.env, and the store's
record count is unchanged — no fresh record is allocated), that record's
content becomes the overlay of the old current environment into it, and
the record that was the current environment before the push is itself
left unmodified. -/
theorem claim_C10_in_place_overlay (check : StackItem → StackItem → CheckResult)
    (fuel : Nat) (s : StackState) (top : StackItem) (tl : List StackItem)
    (item : StackItem) (r cur : EnvRef)
    (hs : s.stack = top :: tl)
    (hi : item.env = some r)
    (henv : s.env = some cur)
    (hne : r ≠ cur)
    (hr : r < s.store.recs.length)
    (hd : check top (withGlobal s item) = .bool true) :
    ∃ s', pushList check (fuel + 1) s [PushArg.item item] = some s' ∧
      s'.env = item.env ∧
      s'.store.recs.length = s.store.recs.length ∧
      s'.store.get r = overlayInto (s.store.get r) (s.store.get cur) ∧
      s'.store.get cur = s.store.get cur := by
  have hda : dispatchResult check s (withGlobal s item) = .bool true := by
    simp [dispatchResult, hs, hd]
  have hie : (withGlobal s item).env = some r := hi
  have hcur : s.curEnvMap = s.store.get cur := by simp [StackState.curEnvMap, henv]
  refine ⟨acceptStep s (withGlobal s item),
    pushList_single_accept check fuel s item hda, ?_, ?_, ?_, ?_⟩
  · simp [acceptStep, hie, hi]
  · simp [acceptStep, hie, Store.set]
  · simp only [acceptStep, hie]
    rw [store_get_set_self s.store r _ hr, hcur]
  · simp only [acceptStep, hie]
    rw [store_get_set_ne s.store r cur _ hne]

theorem claim_C10_witness :
    exState.stack = exTop :: [] ∧ exItem.env = some 2 ∧ exState.env = some 1 ∧
    (2 : EnvRef) ≠ 1 ∧ 2 < exState.store.recs.length ∧
    checkAlways exTop (withGlobal exState exItem) = .bool true ∧
    (∃ s', pushList checkAlways (0 + 1) exState [PushArg.item exItem] = some s' ∧
      s'.env = exItem.env ∧
      s'.store.recs.length = exState.store.recs.length ∧
      s'.store.get 2 = overlayInto (exState.store.get 2) (exState.store.get 1) ∧
      s'.store.get 1 = exState.store.get 1) :=
  ⟨rfl, rfl, rfl, by decide, by decide, rfl,
    claim_C10_in_place_overlay checkAlways 0 exState exTop [] exItem 2 1 rfl rfl rfl
      (by decide) (by decide) rfl⟩

/-! Lemmas for the replacement-list and round-trip claims. -/

lemma popDrop_of_pop (s : StackState) (i : StackItem) (s1 : StackState)
    (h : s.pop = .ok (i, s1)) : popDrop s = some s1 := by
  simp [popDrop, h]

/-- C2: if pushing a candidate makes the top item's checkItem return the
two-element replacement list (X, Y), Push pops the original top and
recursively pushes X and then Y; when those two pushes are themselves
accepted, the resulting stack is Y above X, both above whatever was below
the original top. -/
theorem claim_C2_replacement_list_order (check : StackItem → StackItem → CheckResult)
    (fuel : Nat) (s s1 s2 : StackState) (cand T X Y X' Y' : StackItem)
    (rest : List StackItem)
    (hs : s.stack = T :: rest)
    (hcheck : check T (withGlobal s cand) = .list [PushArg.item X, PushArg.item Y])
    (hpop : popDrop s = some s1)
    (hX' : X' = withGlobal s1 X)
    (haccX : accepts check s1 X')
    (hs2 : s2 = acceptStep s1 X')
    (hY' : Y' = withGlobal s2 Y)
    (haccY : accepts check s2 Y') :
    pushList check (fuel + 3) s [PushArg.item cand] = some (acceptStep s2 Y') ∧
    (acceptStep s2 Y').stack = placeItem s2 Y' :: placeItem s1 X' :: rest := by
  have hd : dispatchResult check s (withGlobal s cand) =
      .list [PushArg.item X, PushArg.item Y] := by
    simp [dispatchResult, hs, hcheck]
  have hinner : pushList check (fuel + 2) s1 [PushArg.item X, PushArg.item Y] =
      some (acceptStep s2 Y') := by
    rw [show fuel + 2 = (fuel + 1) + 1 from rfl,
      pushList_cons_true check (fuel + 1) s1 (PushArg.item X) X [PushArg.item Y] rfl
        (by rw [← hX']; exact haccX)]
    rw [← hX', ← hs2]
    rw [pushList_single_accept check fuel s2 Y (by rw [← hY']; exact haccY), ← hY']
  constructor
  · rw [show fuel + 3 = (fuel + 2) + 1 from rfl,
      pushList_cons_list check (fuel + 2) s s1 (acceptStep s2 Y') (PushArg.item cand)
        cand [PushArg.item X, PushArg.item Y] [] rfl hd hpop hinner,
      pushList_nil]
  · rw [acceptStep_stack, hs2, acceptStep_stack,
      popDrop_stack s s1 T rest hs hpop]

theorem claim_C2_witness :
    exState2.stack = exTop :: [exBottom] ∧
    checkReplace exTop (withGlobal exState2 exCand) =
      .list [PushArg.item exX, PushArg.item exY] ∧
    popDrop exState2 = some w2S1 ∧
    accepts checkReplace w2S1 w2X ∧
    accepts checkReplace w2S2 w2Y ∧
    (pushList checkReplace (0 + 3) exState2 [PushArg.item exCand] =
        some (acceptStep w2S2 w2Y) ∧
      (acceptStep w2S2 w2Y).stack =
        placeItem w2S2 w2Y :: placeItem w2S1 w2X :: [exBottom]) :=
  ⟨rfl, rfl, rfl, rfl, rfl,
    claim_C2_replacement_list_order checkReplace 0 exState2 w2S1 w2S2 exCand exTop
      exX exY w2X w2Y [exBottom] rfl rfl rfl rfl rfl rfl rfl rfl⟩

lemma pushList_plain (check : StackItem → StackItem → CheckResult) :
    ∀ (items : List StackItem) (fuel : Nat) (s : StackState),
      PlainAccepted check s items → items.length ≤ fuel →
      pushList check fuel s (items.map PushArg.item) = some (pushPlain s items) := by
  intro items
  induction items with
  | nil => intro fuel s _ _; simp [pushPlain, pushList_nil]
  | cons i tl ih =>
    intro fuel s hacc hlen
    obtain ⟨h1, h2⟩ := hacc
    match fuel with
    | 0 => exact absurd hlen (by simp)
    | fuel + 1 =>
      rw [List.map_cons,
        pushList_cons_true check fuel s (PushArg.item i) i (tl.map PushArg.item) rfl h1]
      rw [ih fuel (acceptStep s (withGlobal s i)) h2 (by simp at hlen; omega)]
      rfl

lemma pushPlain_stack : ∀ (items : List StackItem) (s : StackState),
    ∃ pref : List StackItem, (pushPlain s items).stack = pref ++ s.stack ∧
      pref.length = items.length := by
  intro items
  induction items with
  | nil => intro s; exact ⟨[], rfl, rfl⟩
  | cons i tl ih =>
    intro s
    obtain ⟨pref, hp, hl⟩ := ih (acceptStep s (withGlobal s i))
    refine ⟨pref ++ [placeItem s (withGlobal s i)], ?_, ?_⟩
    · show (pushPlain (acceptStep s (withGlobal s i)) tl).stack = _
      rw [hp, acceptStep_stack]
      simp
    · simp [hl]

lemma popN_peel (T : StackItem) (rest : List StackItem) :
    ∀ (pref : List StackItem) (s : StackState), pref ≠ [] →
      s.stack = pref ++ T :: rest →
      ∃ s'', popN pref.length s = some s'' ∧ s''.stack = T :: rest ∧
        s''.env = T.env := by
  intro pref
  induction pref with
  | nil => intro s h _; exact absurd rfl h
  | cons p ps ih =>
    intro s _ hstack
    cases ps with
    | nil =>
      simp only [List.cons_append, List.nil_append] at hstack
      refine ⟨{ s with stack := T :: rest, env := T.env }, ?_, rfl, rfl⟩
      simp [popN, StackState.pop, hstack]
    | cons q qs =>
      simp only [List.cons_append] at hstack
      have hpop : s.pop = .ok (if p.isOpen then p else { p with env := none },
          { s with stack := q :: (qs ++ T :: rest), env := q.env }) := by
        simp [StackState.pop, hstack]
      obtain ⟨s'', h1, h2, h3⟩ :=
        ih { s with stack := q :: (qs ++ T :: rest), env := q.env } (by simp) (by simp)
      refine ⟨s'', ?_, h2, h3⟩
      show popN ((q :: qs).length + 1) s = some s''
      simp only [popN, hpop]
      exact h1

/-- C8: from a reachable-shape state (current environment equal to the
top's env), any sequence of k plainly accepted pushes followed by k Pop
calls returns the stack to its exact pre-sequence item list — hence its
depth — and restores the current-environment pointer to the record it
held before the sequence. -/
theorem claim_C8_roundtrip (check : StackItem → StackItem → CheckResult)
    (fuel : Nat) (s sp : StackState) (items : List StackItem)
    (hinv : EnvInv s) (hne : s.stack ≠ [])
    (hacc : PlainAccepted check s items)
    (hfuel : items.length ≤ fuel)
    (hp : pushList check fuel s (items.map PushArg.item) = some sp) :
    ∃ s'', popN items.length sp = some s'' ∧ s''.stack = s.stack ∧
      s''.env = s.env := by
  have hsp : sp = pushPlain s items := by
    have h := pushList_plain check items fuel s hacc hfuel
    rw [hp] at h
    exact Option.some_inj.mp h
  subst hsp
  obtain ⟨pref, hps, hpl⟩ := pushPlain_stack items s
  cases hstack : s.stack with
  | nil => exact absurd hstack hne
  | cons T rest =>
    have henvT : s.env = T.env := by
      have h := hinv
      unfold EnvInv at h
      rw [hstack] at h
      exact h
    cases items with
    | nil => exact ⟨s, rfl, hstack, rfl⟩
    | cons i tl =>
      have hprefne : pref ≠ [] := by
        intro h
        rw [h] at hpl
        simp at hpl
      obtain ⟨s'', h1, h2, h3⟩ :=
        popN_peel T rest pref (pushPlain s (i :: tl)) hprefne (by rw [hps, hstack])
      refine ⟨s'', by rw [← hpl]; exact h1, by rw [h2], ?_⟩
      rw [h3, henvT]

theorem claim_C8_witness :
    EnvInv wInit ∧ wInit.stack ≠ [] ∧
    PlainAccepted checkAlways wInit [exPlain] ∧
    (∃ s'', popN 1 (pushPlain wInit [exPlain]) = some s'' ∧
      s''.stack = wInit.stack ∧ s''.env = wInit.env) :=
  ⟨rfl, by decide, ⟨rfl, trivial⟩,
    claim_C8_roundtrip checkAlways 1 wInit (pushPlain wInit [exPlain]) [exPlain]
      rfl (by decide) ⟨rfl, trivial⟩ (by decide) rfl⟩
